import Mathlib

/-!
Verification of the ClimateBench2 core: the grid-standardization routine
(`standardize_dims` in src/utils.py), the tiered data-resolution cascade
(`DataFinder.read_data` and `check_gcs_files` in src/backend/data_finder.py),
and the metric-calculation engine (`MetricCalculation`, `bias_adjustment` in
src/benchmark_scrips/benchmark_utils.py), shallowly embedded over lists of
rationals.  Python/xarray sorting of a labelled axis is modelled as sorting
index-key pairs by key with the original index as tie-break, which yields the
stable sort independently of the algorithm.
-/

set_option linter.unusedVariables false
set_option linter.unusedSectionVars false
set_option linter.deprecated false

namespace ClimateBench2

open List

/-- Calendar date (year, month, day), the value type of a `time` coordinate. -/
structure Date where
  y : Int
  m : Int
  d : Int
deriving DecidableEq, Repr

/-- Lexicographic order on dates, matching chronological order of timestamps. -/
def Date.le (a b : Date) : Prop :=
  a.y < b.y ∨ (a.y = b.y ∧ (a.m < b.m ∨ (a.m = b.m ∧ a.d ≤ b.d)))

instance : DecidableRel Date.le := fun a b =>
  inferInstanceAs (Decidable (a.y < b.y ∨ (a.y = b.y ∧ (a.m < b.m ∨ (a.m = b.m ∧ a.d ≤ b.d)))))

instance : IsRefl Date Date.le := ⟨fun a => Or.inr ⟨rfl, Or.inr ⟨rfl, le_refl _⟩⟩⟩

instance : IsTrans Date Date.le := by
  refine ⟨fun a b c hab hbc => ?_⟩
  unfold Date.le at *
  rcases hab with h1 | ⟨e1, h1⟩ <;> rcases hbc with h2 | ⟨e2, h2⟩
  · exact Or.inl (h1.trans h2)
  · exact Or.inl (e2 ▸ h1)
  · exact Or.inl (e1 ▸ h2)
  · refine Or.inr ⟨e1.trans e2, ?_⟩
    rcases h1 with h1 | ⟨f1, h1⟩ <;> rcases h2 with h2 | ⟨f2, h2⟩
    · exact Or.inl (h1.trans h2)
    · exact Or.inl (f2 ▸ h1)
    · exact Or.inl (f1 ▸ h2)
    · exact Or.inr ⟨f1.trans f2, h1.trans h2⟩

instance : IsAntisymm Date Date.le := by
  refine ⟨fun a b hab hba => ?_⟩
  rcases a with ⟨ay, am, ad⟩
  rcases b with ⟨by', bm, bd⟩
  simp only [Date.le] at hab hba
  simp only [Date.mk.injEq]
  omega

instance : IsTotal Date Date.le := by
  refine ⟨fun a b => ?_⟩
  simp only [Date.le]
  omega

section SortMachinery

variable {κ : Type} (kle : κ → κ → Prop) [DecidableRel kle] [DecidableEq κ]

/-- Order on (original index, key) pairs: compare by key, break ties by the
original position.  This is a total order, so any correct sorting algorithm
produces the stable sort of the keys. -/
def idxRel (p q : ℕ × κ) : Prop :=
  if p.2 = q.2 then p.1 ≤ q.1 else kle p.2 q.2

instance : DecidableRel (idxRel kle) := fun p q =>
  inferInstanceAs (Decidable (if p.2 = q.2 then p.1 ≤ q.1 else kle p.2 q.2))

/-- Sorted list of (original index, key) pairs for a list of axis labels. -/
def sortedEnum (keys : List κ) : List (ℕ × κ) :=
  insertionSort (idxRel kle) keys.enum

/-- Permutation (as a list of source indices) realizing the stable sort of
an axis by its labels, as performed by xarray's sortby. -/
def sortPerm (keys : List κ) : List ℕ :=
  (sortedEnum kle keys).map Prod.fst

/-- Axis labels after the stable sort. -/
def sortKeys (keys : List κ) : List κ :=
  (sortedEnum kle keys).map Prod.snd

/-- Reorder a data list by a permutation given as source indices; positions
outside the list produce the default (xarray never does, but the embedding is
total). -/
def permuteBy {α : Type} (perm : List ℕ) (dflt : α) (xs : List α) : List α :=
  perm.map (fun k => xs.getD k dflt)

variable [IsTotal κ kle] [IsTrans κ kle] [IsAntisymm κ kle] [IsRefl κ kle]

instance : IsTotal (ℕ × κ) (idxRel kle) := by
  refine ⟨fun p q => ?_⟩
  unfold idxRel
  by_cases h : p.2 = q.2
  · rw [if_pos h, if_pos h.symm]
    exact Nat.le_total p.1 q.1
  · rw [if_neg h, if_neg (Ne.symm h)]
    exact IsTotal.total p.2 q.2

instance : IsTrans (ℕ × κ) (idxRel kle) := by
  refine ⟨fun p q r hpq hqr => ?_⟩
  unfold idxRel at *
  by_cases h1 : p.2 = q.2 <;> by_cases h2 : q.2 = r.2
  · rw [if_pos h1] at hpq
    rw [if_pos h2] at hqr
    rw [if_pos (h1.trans h2)]
    exact hpq.trans hqr
  · rw [if_pos h1] at hpq
    rw [if_neg h2] at hqr
    rw [if_neg (h1 ▸ h2), h1]
    exact hqr
  · rw [if_neg h1] at hpq
    rw [if_pos h2] at hqr
    rw [if_neg (h2 ▸ h1), ← h2]
    exact hpq
  · rw [if_neg h1] at hpq
    rw [if_neg h2] at hqr
    have hpr : kle p.2 r.2 := Trans.trans hpq hqr
    have hne : p.2 ≠ r.2 := by
      intro he
      exact h1 (IsAntisymm.antisymm _ _ hpq (he ▸ hqr))
    rw [if_neg hne]
    exact hpr

end SortMachinery

/-! Embedding of `standardize_dims` (src/utils.py).  The coordinate-rename
block maps provider name variants (latitude/Latitude/nav_lat, longitude/…,
datetime, nlon/x, nlat/y) onto the canonical names lat/lon/time/i/j and leaves
canonical names untouched, so it is the identity on any already-standardized
dataset; the embedding therefore represents datasets with canonical axis names
and models the coordinate-value transformations that follow the renames. -/

/-- Python float modulo: `x % 360` maps any value into [0, 360). -/
def qmod360 (x : ℚ) : ℚ := x - 360 * ((x / 360).floor : ℚ)

/-- Truncation of a timestamp to the first of its month, as performed by
`pd.to_datetime(ds["time"].dt.strftime("%Y-%m-01"))`. -/
def truncMonth (t : Date) : Date := ⟨t.y, t.m, 1⟩

/-- Rectilinear dataset: 1-D lat and lon dimension coordinates, a time axis,
and a data variable indexed time × lat × lon. -/
structure RectDS where
  time : List Date
  lat : List ℚ
  lon : List ℚ
  data : List (List (List ℚ))
deriving DecidableEq, Repr

/-- Curvilinear dataset: 2-D lat and lon coordinates indexed by (j, i) with
1-D j and i index coordinates, and a data variable indexed time × j × i. -/
structure CurvDS where
  time : List Date
  jc : List ℚ
  ic : List ℚ
  lat : List (List ℚ)
  lon : List (List ℚ)
  data : List (List (List ℚ))
deriving DecidableEq, Repr

/-- Month-truncate every timestamp, then sort the time axis ascending,
permuting the data's time slices along (rectilinear case). -/
def rectFixTime (ds : RectDS) : RectDS :=
  let t := ds.time.map truncMonth
  { ds with
    time := sortKeys Date.le t
    data := permuteBy (sortPerm Date.le t) [] ds.data }

/-- Shift longitudes into [0, 360) and sort the lon axis, permuting data
columns along (`assign_coords(lon=(ds.lon % 360))` followed by
`sortby("lon")`). -/
def rectShiftSortLon (ds : RectDS) : RectDS :=
  let lm := ds.lon.map qmod360
  let p := sortPerm (· ≤ · : ℚ → ℚ → Prop) lm
  { ds with
    lon := sortKeys (· ≤ · : ℚ → ℚ → Prop) lm
    data := ds.data.map (fun slice => slice.map (fun row => permuteBy p 0 row)) }

/-- Sort the lat axis ascending, permuting data rows along (`sortby("lat")`). -/
def rectSortLat (ds : RectDS) : RectDS :=
  let p := sortPerm (· ≤ · : ℚ → ℚ → Prop) ds.lat
  { ds with
    lat := sortKeys (· ≤ · : ℚ → ℚ → Prop) ds.lat
    data := ds.data.map (fun slice => permuteBy p [] slice) }

/-- Regular latitude axis re-derived from the cell count:
`np.arange(-90 + lat_res/2, 90, lat_res)` with `lat_res = 180/lat_len`. -/
def resetLatAxis (n : ℕ) : List ℚ :=
  (List.range n).map (fun k => -90 + 180 / n / 2 + k * (180 / n))

/-- Regular longitude axis re-derived from the cell count:
`np.arange(lon_res/2, 360, lon_res)` with `lon_res = 360/lon_len`. -/
def resetLonAxis (n : ℕ) : List ℚ :=
  (List.range n).map (fun k => 360 / n / 2 + k * (360 / n))

/-- Rectilinear branch of `standardize_dims`: fix time, shift and sort lon,
sort lat, and optionally replace both axes by perfectly regular ones. -/
def standardizeRect (reset_coorinates : Bool) (ds : RectDS) : RectDS :=
  let ds := rectFixTime ds
  let ds := rectShiftSortLon ds
  let ds := rectSortLat ds
  if reset_coorinates then
    { ds with lat := resetLatAxis ds.lat.length, lon := resetLonAxis ds.lon.length }
  else ds

/-- Column `idx` of a 2-D coordinate, as in `isel(i=idx)`. -/
def colAt (idx : ℕ) (m : List (List ℚ)) : List ℚ :=
  m.map (fun row => row.getD idx 0)

/-- Last element (python index -1). -/
def lastD (xs : List ℚ) (d : ℚ) : ℚ :=
  xs.getD (xs.length - 1) d

/-- Month-truncate and sort the time axis (curvilinear case). -/
def curvFixTime (ds : CurvDS) : CurvDS :=
  let t := ds.time.map truncMonth
  { ds with
    time := sortKeys Date.le t
    data := permuteBy (sortPerm Date.le t) [] ds.data }

/-- Orientation step of the curvilinear branch: sample latitude column i = 1;
if it decreases from first to last, reverse the j labels and re-sort by j. -/
def curvJStep (ds : CurvDS) : CurvDS :=
  let testLats := colAt 1 ds.lat
  if lastD testLats 0 < testLats.getD 0 0 then
    let jr := ds.jc.reverse
    let p := sortPerm (· ≤ · : ℚ → ℚ → Prop) jr
    { ds with
      jc := sortKeys (· ≤ · : ℚ → ℚ → Prop) jr
      lat := permuteBy p [] ds.lat
      lon := permuteBy p [] ds.lon
      data := ds.data.map (fun slice => permuteBy p [] slice) }
  else ds

/-- Longitude step of the curvilinear branch: capture the sampled longitude
row (j = 1) before the modulo, shift all longitudes into [0, 360), and if the
pre-modulo sampled row does not start at 0, re-label i with those pre-modulo
values, sort by them, and reset i to integer positions. -/
def curvLonStep (ds : CurvDS) : CurvDS :=
  let testLons := ds.lon.getD 1 []
  let dsm := { ds with lon := ds.lon.map (fun row => row.map qmod360) }
  if testLons.getD 0 0 ≠ 0 then
    let p := sortPerm (· ≤ · : ℚ → ℚ → Prop) testLons
    { dsm with
      ic := (List.range testLons.length).map (fun k => (k : ℚ))
      lat := dsm.lat.map (fun row => permuteBy p 0 row)
      lon := dsm.lon.map (fun row => permuteBy p 0 row)
      data := dsm.data.map (fun slice => slice.map (fun row => permuteBy p 0 row)) }
  else dsm

/-- Curvilinear branch of `standardize_dims`: fix time, orient j, then shift
and (conditionally) re-sort longitudes. -/
def standardizeCurv (ds : CurvDS) : CurvDS :=
  curvLonStep (curvJStep (curvFixTime ds))

/-- Dataset: either on a rectilinear grid (1-D lat/lon dimension coordinates)
or a curvilinear one (2-D lat/lon), the branch `standardize_dims` picks by
inspecting the dimensionality of the lat/lon coordinates. -/
inductive XrDataset
| rect (ds : RectDS)
| curv (ds : CurvDS)
deriving DecidableEq, Repr

/-- Embedding of `standardize_dims` (src/utils.py): after the coordinate
renames, dispatch on the grid kind. -/
def standardize_dims (reset_coorinates : Bool) : XrDataset → XrDataset
| .rect ds => .rect (standardizeRect reset_coorinates ds)
| .curv ds => .curv (standardizeCurv ds)

/-- Well-formed rectilinear dataset: the data variable's shape agrees with the
coordinate lengths (xarray enforces this at dataset construction). -/
def RectDS.wf (ds : RectDS) : Prop :=
  ds.data.length = ds.time.length ∧
    ∀ s ∈ ds.data, s.length = ds.lat.length ∧ ∀ r ∈ s, r.length = ds.lon.length

instance : DecidablePred RectDS.wf := fun ds =>
  inferInstanceAs (Decidable (_ ∧ _))

/-- Curvilinear dataset with a single time step, ascending j, and a sampled
longitude row starting at -10: sorted pre-modulo as [-10, 5] but stored
post-modulo as [350, 5]. -/
def exCurvNonIdem : CurvDS :=
  { time := [⟨2000, 1, 16⟩], jc := [0, 1], ic := [0, 1]
    lat := [[0, 0], [1, 1]], lon := [[-10, 5], [-10, 5]], data := [[[1, 2], [3, 4]]] }

/-- Image of `exCurvNonIdem` under one standardization: the stored longitude
row [350, 5] is no longer sorted, so a second standardization re-permutes. -/
def exCurvMid : CurvDS :=
  { time := [⟨2000, 1, 1⟩], jc := [0, 1], ic := [0, 1]
    lat := [[0, 0], [1, 1]], lon := [[350, 5], [350, 5]], data := [[[1, 2], [3, 4]]] }

/-- Rectilinear dataset mirroring the repository's own unit-test fixture
(times on the 16th, descending lat, lon including -120). -/
def exRectStd : RectDS :=
  { time := [⟨2000, 1, 16⟩, ⟨2000, 2, 16⟩, ⟨2000, 3, 16⟩]
    lat := [60, 0, -60], lon := [-120, 60, 180]
    data := [[[11, 12, 13], [21, 22, 23], [31, 32, 33]],
             [[14, 15, 16], [24, 25, 26], [34, 35, 36]],
             [[17, 18, 19], [27, 28, 29], [37, 38, 39]]] }

/-- Rectilinear dataset with a duplicated latitude value. -/
def exRectDupLat : RectDS :=
  { time := [⟨2000, 1, 1⟩], lat := [5, 5], lon := [0], data := [[[1], [2]]] }

/-! Embedding of the metric-calculation engine
(`MetricCalculation`, `bias_adjustment`, `anomaly` in
src/benchmark_scrips/benchmark_utils.py).  A weight field is a lat × lon grid
of optional rationals, `none` modelling NaN; data variables are
time × lat × lon grids (with an optional leading ensemble axis). -/

/-- Row-wise mask with an index-dependent condition: row i is kept when
`cond i`, otherwise every cell becomes NaN (`none`).  This is xarray's
`DataArray.where` with a predicate on the lat coordinate, which broadcasts
along lon. -/
def maskRows (cond : ℕ → Bool) : List (List (Option ℚ)) → ℕ → List (List (Option ℚ))
| [], _ => []
| r :: rs, i => (if cond i then r else r.map (fun _ => none)) :: maskRows cond rs (i + 1)

/-- `weights.where(weights.lat > lat_min)`. -/
def whereLatGt (b : ℚ) (lats : List ℚ) (w : List (List (Option ℚ))) : List (List (Option ℚ)) :=
  maskRows (fun i => decide (b < lats.getD i 0)) w 0

/-- `weights.where(weights.lat < lat_max)`. -/
def whereLatLt (b : ℚ) (lats : List ℚ) (w : List (List (Option ℚ))) : List (List (Option ℚ)) :=
  maskRows (fun i => decide (lats.getD i 0 < b)) w 0

/-- The region masking performed in `MetricCalculation.__init__`: weights at
latitudes outside the open interval (lat_min, lat_max) become NaN. -/
def maskedWeights (lat_min lat_max : ℚ) (lats : List ℚ) (w : List (List (Option ℚ))) :
    List (List (Option ℚ)) :=
  whereLatLt lat_max lats (whereLatGt lat_min lats w)

/-- `weights.fillna(0)`: NaN weights become 0. -/
def fillna0 (w : List (List (Option ℚ))) : List (List ℚ) :=
  w.map (fun row => row.map (fun c => c.getD 0))

/-- Inner product of a weight row and a data row. -/
def dotSum (w x : List ℚ) : ℚ := (List.zipWith (· * ·) w x).sum

/-- Sum of weight × value over a 2-D grid. -/
def weightedSum (w g : List (List ℚ)) : ℚ := (List.zipWith dotSum w g).sum

/-- Total weight of a 2-D weight grid. -/
def totalWeight (w : List (List ℚ)) : ℚ := (w.map List.sum).sum

/-- Weighted mean over the spatial grid, `ds.weighted(w).mean(spatial_dims)`. -/
def weightedMean (w g : List (List ℚ)) : ℚ := weightedSum w g / totalWeight w

/-- `MetricCalculation.zonal_mean`: per time step, the weighted spatial mean
with NaN weights filled by 0. -/
def zonal_mean (w : List (List (Option ℚ))) (g : List (List (List ℚ))) : List ℚ :=
  g.map (fun slice => weightedMean (fillna0 w) slice)

/-- Zonal mean of an ensemble-carrying model grid: the ensemble axis is kept
(the spatial dims exclude both time and ensemble), so each member is
spatially collapsed independently. -/
def zonal_mean_ens (w : List (List (Option ℚ))) (g : List (List (List (List ℚ)))) :
    List (List ℚ) :=
  g.map (fun member => zonal_mean w member)

/-- Python's bitwise complement applied to a bool: `~True == -2`,
`~False == -1`. -/
def pyInvert (b : Bool) : Int := if b then -2 else -1

/-- Python truthiness of an int: nonzero is truthy. -/
def pyTruthy (i : Int) : Bool := decide (i ≠ 0)

/-- The axis-relabel step in `MetricCalculation.__init__`:
`if ~weights.lat.equals(self.model.lat): weights["lat"] = self.model["lat"]`.
The assignment succeeds only when the axis lengths agree, else xarray raises a
size-conflict error. -/
def relabelAxis (waxis maxis : List ℚ) : Except String (List ℚ) :=
  if pyTruthy (pyInvert (decide (waxis = maxis))) then
    if waxis.length = maxis.length then Except.ok maxis
    else Except.error "conflicting sizes for dimension"
  else Except.ok waxis

/-- Whole-period mean of a time series. -/
def seriesMean (xs : List ℚ) : ℚ := xs.sum / xs.length

/-- `bias_adjustment(model, obs)`: subtract the whole-period mean difference
from every model value. -/
def bias_adjustment (model obs : List ℚ) : List ℚ :=
  model.map (fun x => x - (seriesMean model - seriesMean obs))

/-- Errors surfaced by the CRPS path: the (intended) missing-ensemble guard
and the error the external CRPS library raises when the member dimension is
absent from the forecasts. -/
inductive PyError
| missingEnsembleDimension
| missingCoreDim
deriving DecidableEq, Repr

/-- Zonal-mean series handed to the statistic: either collapsed to one value
per time step, or retaining the ensemble axis (ensemble × time). -/
inductive ZonalSeries
| collapsed (vals : List ℚ)
| ens (vals : List (List ℚ))
deriving DecidableEq, Repr

/-- Does the series carry the `ensemble` dimension? -/
def ZonalSeries.hasEnsemble : ZonalSeries → Bool
| .collapsed _ => false
| .ens _ => true

/-- Modelled from the spec: the standard empirical CRPS formula for a finite
ensemble, `mean |x_i - y| - (1/(2 m^2)) * sum_{i,j} |x_i - x_j|`, the value
computed by the external `xskillscore`/`properscoring` `crps_ensemble`
(a library dependency, not part of this repository). -/
def crpsEmpirical (xs : List ℚ) (y : ℚ) : ℚ :=
  (xs.map (fun x => |x - y|)).sum / xs.length -
    (xs.map (fun a => (xs.map (fun b => |a - b|)).sum)).sum / (2 * (xs.length : ℚ) ^ 2)

/-- Mean absolute deviation of the ensemble members from the observation. -/
def meanAbsDev (xs : List ℚ) (y : ℚ) : ℚ := (xs.map (fun x => |x - y|)).sum / xs.length

/-- Modelled from the spec: `xs.crps_ensemble(forecasts, observations,
member_dim="ensemble")` without an explicit `dim` reduces over all remaining
dimensions, giving the time-mean of the per-time-step empirical CRPS; when the
forecasts lack the member dimension the library fails with a
missing-core-dimension error (not the repository's own guard). -/
def crps_ensemble (forecasts : ZonalSeries) (observations : List ℚ) : Except PyError ℚ :=
  match forecasts with
  | .ens vals =>
      Except.ok (((List.range observations.length).map
        (fun t => crpsEmpirical (vals.map (fun member => member.getD t 0))
          (observations.getD t 0))).sum / observations.length)
  | .collapsed _ => Except.error PyError.missingCoreDim

/-- Embedding of `MetricCalculation.zonal_mean_crps` (adjustment None): the
source's ensemble check is the bare statement `ValueError("no ensemble
dimension")` — the exception object is constructed but never raised, so it has
no effect on control flow; it is modelled as an unused value. -/
def zonal_mean_crps (modelZonalMean : ZonalSeries) (obsZonalMean : List ℚ) :
    Except PyError ℚ :=
  let unraisedCheck : Option PyError :=
    if modelZonalMean.hasEnsemble then none else some PyError.missingEnsembleDimension
  crps_ensemble modelZonalMean obsZonalMean

/-- Model data variable for the spatial statistics: time × lat × lon values,
optionally with a leading ensemble axis. -/
inductive ModelGrid
| collapsed (vals : List (List (List ℚ)))
| ens (vals : List (List (List (List ℚ))))
deriving DecidableEq, Repr

/-- Does the model grid carry the `ensemble` dimension? -/
def ModelGrid.hasEnsemble : ModelGrid → Bool
| .collapsed _ => false
| .ens _ => true

/-- Modelled from the spec: the library's weighted spatial CRPS — for each
time step, the weighted spatial mean of the per-cell empirical CRPS; missing
member dimension fails inside the library. -/
def crps_ensemble_spatial (forecasts : ModelGrid) (observations : List (List (List ℚ)))
    (w : List (List ℚ)) : Except PyError (List ℚ) :=
  match forecasts with
  | .ens vals =>
      Except.ok ((List.range observations.length).map (fun t =>
        weightedMean w
          (((observations.getD t []).enum).map (fun rla =>
            ((rla.2).enum).map (fun rlo =>
              crpsEmpirical
                (vals.map (fun member =>
                  (((member.getD t []).getD rla.1 []).getD rlo.1 0)))
                rlo.2)))))
  | .collapsed _ => Except.error PyError.missingCoreDim

/-- Embedding of `MetricCalculation.spatial_crps` (adjustment None): like
`zonal_mean_crps`, the ensemble check constructs a `ValueError` without
raising it. -/
def spatial_crps (model : ModelGrid) (obs : List (List (List ℚ)))
    (w : List (List (Option ℚ))) : Except PyError (List ℚ) :=
  let unraisedCheck : Option PyError :=
    if model.hasEnsemble then none else some PyError.missingEnsembleDimension
  crps_ensemble_spatial model obs (fillna0 w)

/-! Embedding of the tiered data-resolution cascade
(`DataFinder.read_data`, `DataFinder.check_gcs_files` in
src/backend/data_finder.py).  The three backends are modelled as an
environment recording what each tier would return; `read_data` consults them
in order with Python truthiness, and the call counts record which tiers were
actually invoked. -/

/-- Facet tuple identifying a dataset request. -/
structure Facets where
  mip : String
  org : String
  model : String
  experiment : String
  ensemble : String
  frequency : String
  varname : String
deriving DecidableEq, Repr

/-- Data as returned by one of the three tiers. -/
inductive TierData
| localData (files : List String)
| gcsData (zstore : String)
| esgfData (files : List String)
deriving DecidableEq, Repr

/-- What each backend would answer if queried: the local glob result, the
cloud-catalog zstore path (None when no rows), and the remote file-URL list
(None on zero or ambiguous results). -/
structure TierResults where
  localFiles : List String
  gcsPath : Option String
  esgfFiles : Option (List String)
deriving DecidableEq, Repr

/-- How many times each tier was queried during one `read_data` call. -/
structure CallCounts where
  localCalls : ℕ
  gcsCalls : ℕ
  esgfCalls : ℕ
deriving DecidableEq, Repr

/-- Python truthiness of `check_gcs_files`' result: None and the empty string
are falsy. -/
def gcsTruthy : Option String → Bool
| none => false
| some s => decide (s ≠ "")

/-- Python truthiness of `check_esgf_files`' result: None and the empty file
list are falsy. -/
def esgfTruthy : Option (List String) → Bool
| none => false
| some l => decide (l ≠ [])

/-- Embedding of `DataFinder.read_data`: local cache, then cloud catalog,
then federated remote search, first success wins; when all three fail, raise
a ValueError carrying the full facet tuple. -/
def read_data (env : TierResults) (f : Facets) : Except Facets TierData × CallCounts :=
  let local_file_path := env.localFiles
  if local_file_path = [] then
    let gcs_file_path := env.gcsPath
    if gcsTruthy gcs_file_path = false then
      let esgf_file_path := env.esgfFiles
      if esgfTruthy esgf_file_path = false then
        (Except.error f, ⟨1, 1, 1⟩)
      else
        (Except.ok (TierData.esgfData (esgf_file_path.getD [])), ⟨1, 1, 1⟩)
    else
      (Except.ok (TierData.gcsData (gcs_file_path.getD "")), ⟨1, 1, 0⟩)
  else
    (Except.ok (TierData.localData local_file_path), ⟨1, 0, 0⟩)

/-- One row of the pangeo-cmip6 cloud catalog after facet filtering. -/
structure CatRow where
  activity_id : String
  institution_id : String
  source_id : String
  experiment_id : String
  member_id : String
  table_id : String
  variable_id : String
  grid_label : String
  version : ℕ
  zstore : String
deriving DecidableEq, Repr

/-- The logical-dataset identity: all facet columns except version/zstore. -/
def CatRow.key (r : CatRow) :
    String × String × String × String × String × String × String × String :=
  (r.activity_id, r.institution_id, r.source_id, r.experiment_id, r.member_id,
    r.table_id, r.variable_id, r.grid_label)

/-- Descending order on the parsed version date (versions are YYYYMMDD
numbers, so numeric order equals date order). -/
def versionDesc (a b : CatRow) : Prop := b.version ≤ a.version

instance : DecidableRel versionDesc := fun a b => Nat.decLe _ _

instance : IsTotal CatRow versionDesc := ⟨fun a b => Nat.le_total b.version a.version⟩

instance : IsTrans CatRow versionDesc := ⟨fun _ _ _ hab hbc => le_trans hbc hab⟩

/-- `df.sort_values("version_date", ascending=False)`. -/
def sortByVersionDesc (rows : List CatRow) : List CatRow :=
  insertionSort versionDesc rows

/-- `drop_duplicates([...facet columns...])`: keep the first row of each
logical-dataset key. -/
def dropDupKeys :
    List (String × String × String × String × String × String × String × String) →
      List CatRow → List CatRow
| _, [] => []
| seen, r :: rest =>
    if r.key ∈ seen then dropDupKeys seen rest
    else r :: dropDupKeys (r.key :: seen) rest

/-- The duplicate-version resolution of `check_gcs_files`: with more than one
filtered row, sort by version date descending and keep the first row per
logical dataset. -/
def resolveVersions (rows : List CatRow) : List CatRow :=
  if 1 < rows.length then dropDupKeys [] (sortByVersionDesc rows) else rows

/-- Embedding of `DataFinder.check_gcs_files` after the facet filter: dedup
when more than one row, return None when no rows, else the first zstore. -/
def check_gcs_files (rows : List CatRow) : Option String :=
  if 1 < rows.length then ((dropDupKeys [] (sortByVersionDesc rows)).map CatRow.zstore).head?
  else if rows.length = 0 then none
  else (rows.map CatRow.zstore).head?

/-- Concrete catalog row with the older version. -/
def crow2018 : CatRow :=
  { activity_id := "CMIP", institution_id := "NASA-GISS", source_id := "GISS-E2-1-G"
    experiment_id := "historical", member_id := "r1i1p1f1", table_id := "Amon"
    variable_id := "tas", grid_label := "gn", version := 20180101, zstore := "gs://old" }

/-- The same logical dataset with the newer version. -/
def crow2020 : CatRow :=
  { crow2018 with version := 20200101, zstore := "gs://new" }

/-- Concrete facet tuple. -/
def exFacets : Facets :=
  { mip := "CMIP", org := "NASA-GISS", model := "GISS-E2-1-G", experiment := "historical"
    ensemble := "r1i1p1f1", frequency := "Amon", varname := "tas" }

section SortMachinery

variable {κ : Type} (kle : κ → κ → Prop) [DecidableRel kle] [DecidableEq κ]

variable [IsTotal κ kle] [IsTrans κ kle] [IsAntisymm κ kle] [IsRefl κ kle]

theorem sortedEnum_perm (keys : List κ) : sortedEnum kle keys ~ keys.enum :=
  perm_insertionSort _ _

theorem sortKeys_perm (keys : List κ) : sortKeys kle keys ~ keys := by
  have h := (sortedEnum_perm kle keys).map Prod.snd
  rwa [enum_map_snd] at h

theorem mem_sortKeys {keys : List κ} {x : κ} : x ∈ sortKeys kle keys ↔ x ∈ keys :=
  (sortKeys_perm kle keys).mem_iff

theorem length_sortPerm (keys : List κ) : (sortPerm kle keys).length = keys.length := by
  simp [sortPerm, sortedEnum]

theorem length_sortKeys (keys : List κ) : (sortKeys kle keys).length = keys.length := by
  simp [sortKeys, sortedEnum]

theorem length_permuteBy {α : Type} (perm : List ℕ) (dflt : α) (xs : List α) :
    (permuteBy perm dflt xs).length = perm.length := by
  simp [permuteBy]

/-- The enumeration of an already kle-sorted key list is sorted for the
index-tie-broken order. -/
theorem enum_sorted_of_sorted {keys : List κ} (h : keys.Sorted kle) :
    (keys.enum).Sorted (idxRel kle) := by
  rw [Sorted, pairwise_iff_get] at h ⊢
  intro i j hij
  rw [get_enum, get_enum]
  unfold idxRel
  by_cases he : keys.get (i.cast enum_length) = keys.get (j.cast enum_length)
  · rw [if_pos he]
    exact le_of_lt hij
  · rw [if_neg he]
    exact h _ _ hij

/-- Sorting an already-sorted axis is the identity on the enumerated pairs. -/
theorem sortedEnum_eq_of_sorted {keys : List κ} (h : keys.Sorted kle) :
    sortedEnum kle keys = keys.enum :=
  Sorted.insertionSort_eq (enum_sorted_of_sorted kle h)

theorem sortPerm_eq_range_of_sorted {keys : List κ} (h : keys.Sorted kle) :
    sortPerm kle keys = List.range keys.length := by
  rw [sortPerm, sortedEnum_eq_of_sorted kle h, enum_map_fst]

theorem sortKeys_eq_of_sorted {keys : List κ} (h : keys.Sorted kle) :
    sortKeys kle keys = keys := by
  rw [sortKeys, sortedEnum_eq_of_sorted kle h, enum_map_snd]

/-- The key list produced by the stable sort is sorted. -/
theorem sortKeys_sorted (keys : List κ) : (sortKeys kle keys).Sorted kle := by
  have h : (sortedEnum kle keys).Sorted (idxRel kle) :=
    sorted_insertionSort (idxRel kle) keys.enum
  refine Pairwise.map Prod.snd ?_ h
  intro a b hab
  unfold idxRel at hab
  by_cases he : a.2 = b.2
  · rw [he]
    exact IsRefl.refl _
  · rwa [if_neg he] at hab

theorem permuteBy_range {α : Type} (dflt : α) (xs : List α) :
    permuteBy (List.range xs.length) dflt xs = xs := by
  apply List.ext_get
  · simp [length_permuteBy]
  · intro i h1 h2
    have hi : i < xs.length := by
      simpa [length_permuteBy] using h1
    simp only [permuteBy, get_eq_getElem, getElem_map, getElem_range]
    exact List.getD_eq_getElem xs dflt hi

theorem mem_permuteBy {α : Type} {perm : List ℕ} {dflt : α} {xs : List α} {x : α}
    (hx : x ∈ permuteBy perm dflt xs) : x ∈ xs ∨ x = dflt := by
  simp only [permuteBy, mem_map] at hx
  obtain ⟨k, _, hk⟩ := hx
  by_cases hlt : k < xs.length
  · left
    rw [← hk, List.getD_eq_getElem _ _ hlt]
    exact List.getElem_mem _
  · right
    rw [← hk, List.getD_eq_default _ _ (le_of_not_lt hlt)]

end SortMachinery

theorem qmod360_def (x : ℚ) : qmod360 x = x - 360 * (⌊x / 360⌋ : ℚ) := by
  unfold qmod360
  rw [Rat.floor_def', ← Rat.floor_def]

theorem map_id_of_mem {α : Type} {f : α → α} {l : List α} (h : ∀ x ∈ l, f x = x) :
    l.map f = l := by
  induction l with
  | nil => rfl
  | cons a t ih =>
    simp only [map_cons, h a (mem_cons_self a t)]
    rw [ih (fun x hx => h x (mem_cons_of_mem a hx))]

theorem truncMonth_truncMonth (t : Date) : truncMonth (truncMonth t) = truncMonth t := rfl

theorem qmod360_nonneg (x : ℚ) : 0 ≤ qmod360 x := by
  have h := Int.floor_le (x / 360)
  rw [qmod360_def]
  nlinarith [h]

theorem qmod360_lt (x : ℚ) : qmod360 x < 360 := by
  have h := Int.lt_floor_add_one (x / 360)
  rw [qmod360_def]
  nlinarith [h]

theorem qmod360_eq_self {x : ℚ} (h0 : 0 ≤ x) (h1 : x < 360) : qmod360 x = x := by
  have hfl : ⌊x / 360⌋ = 0 := by
    rw [Int.floor_eq_zero_iff]
    constructor
    · positivity
    · rw [div_lt_one (by norm_num : (0:ℚ) < 360)]
      simpa using h1
  rw [qmod360_def, hfl]
  norm_num

theorem qmod360_idem (x : ℚ) : qmod360 (qmod360 x) = qmod360 x :=
  qmod360_eq_self (qmod360_nonneg x) (qmod360_lt x)

theorem sortPerm_mem_lt {κ : Type} (kle : κ → κ → Prop) [DecidableRel kle] [DecidableEq κ]
    [IsTotal κ kle] [IsTrans κ kle] [IsAntisymm κ kle] [IsRefl κ kle]
    {keys : List κ} {k : ℕ} (hk : k ∈ sortPerm kle keys) : k < keys.length := by
  have hperm := (sortedEnum_perm kle keys).map Prod.fst
  rw [enum_map_fst] at hperm
  have : k ∈ List.range keys.length := hperm.mem_iff.mp hk
  simpa using this

theorem mem_permuteBy_of_lt {α : Type} {perm : List ℕ} {dflt : α} {xs : List α}
    (hlt : ∀ k ∈ perm, k < xs.length) {x : α} (hx : x ∈ permuteBy perm dflt xs) :
    x ∈ xs := by
  simp only [permuteBy, mem_map] at hx
  obtain ⟨k, hk, hkx⟩ := hx
  rw [← hkx, List.getD_eq_getElem _ _ (hlt k hk)]
  exact List.getElem_mem _

/-- A time-fix applied to a dataset whose time axis is already sorted and
month-normalized is the identity. -/
theorem rectFixTime_eq_self {ds : RectDS} (hs : ds.time.Sorted Date.le)
    (hf : ∀ t ∈ ds.time, truncMonth t = t) (hl : ds.data.length = ds.time.length) :
    rectFixTime ds = ds := by
  have hmap : ds.time.map truncMonth = ds.time := map_id_of_mem hf
  unfold rectFixTime
  simp only [hmap]
  rw [sortKeys_eq_of_sorted Date.le hs, sortPerm_eq_range_of_sorted Date.le hs, ← hl,
    permuteBy_range]

/-- The longitude shift-and-sort applied to a dataset whose lon axis is sorted,
already in [0,360), and whose data rows have the lon axis's length, is the
identity. -/
theorem rectShiftSortLon_eq_self {ds : RectDS} (hs : ds.lon.Sorted (· ≤ ·))
    (hf : ∀ x ∈ ds.lon, qmod360 x = x)
    (hr : ∀ s ∈ ds.data, ∀ r ∈ s, r.length = ds.lon.length) :
    rectShiftSortLon ds = ds := by
  have hmap : ds.lon.map qmod360 = ds.lon := map_id_of_mem hf
  unfold rectShiftSortLon
  simp only [hmap]
  rw [sortKeys_eq_of_sorted _ hs, sortPerm_eq_range_of_sorted _ hs]
  have hdata : ds.data.map
      (fun slice => slice.map (fun row => permuteBy (List.range ds.lon.length) 0 row)) =
      ds.data := by
    refine map_id_of_mem (fun s hsmem => ?_)
    refine map_id_of_mem (fun r hrmem => ?_)
    rw [← (hr s hsmem r hrmem), permuteBy_range]
  rw [hdata]

/-- The latitude sort applied to a dataset whose lat axis is sorted and whose
data slices have the lat axis's length is the identity. -/
theorem rectSortLat_eq_self {ds : RectDS} (hs : ds.lat.Sorted (· ≤ ·))
    (hsl : ∀ s ∈ ds.data, s.length = ds.lat.length) :
    rectSortLat ds = ds := by
  have hdata : ds.data.map (fun slice => permuteBy (List.range ds.lat.length) [] slice) =
      ds.data := by
    refine map_id_of_mem (fun s hsmem => ?_)
    rw [← hsl s hsmem, permuteBy_range]
  unfold rectSortLat
  simp only [sortKeys_eq_of_sorted _ hs, sortPerm_eq_range_of_sorted _ hs]
  rw [hdata]

theorem standardizeRect_time_eq (ds : RectDS) :
    (standardizeRect false ds).time = sortKeys Date.le (ds.time.map truncMonth) := rfl

theorem standardizeRect_lon_eq (ds : RectDS) :
    (standardizeRect false ds).lon = sortKeys (· ≤ · : ℚ → ℚ → Prop) (ds.lon.map qmod360) := rfl

theorem standardizeRect_lat_eq (ds : RectDS) :
    (standardizeRect false ds).lat = sortKeys (· ≤ · : ℚ → ℚ → Prop) ds.lat := rfl

/-- Idempotence of the rectilinear standardization path, for any dataset whose
data shape agrees with its coordinate lengths. -/
theorem standardizeRect_idem (ds : RectDS) (hwf : ds.wf) :
    standardizeRect false (standardizeRect false ds) = standardizeRect false ds := by
  obtain ⟨hwt, hws⟩ := hwf
  set d3 := standardizeRect false ds with hd3
  have hd3eq : d3 = rectSortLat (rectShiftSortLon (rectFixTime ds)) := rfl
  -- field-level descriptions of the first pass
  have htime : d3.time = sortKeys Date.le (ds.time.map truncMonth) := rfl
  have hlon : d3.lon = sortKeys (· ≤ · : ℚ → ℚ → Prop) (ds.lon.map qmod360) := rfl
  have hlat : d3.lat = sortKeys (· ≤ · : ℚ → ℚ → Prop) ds.lat := rfl
  have hdata : d3.data =
      ((permuteBy (sortPerm Date.le (ds.time.map truncMonth)) [] ds.data).map
        (fun slice => slice.map
          (fun row => permuteBy (sortPerm (· ≤ · : ℚ → ℚ → Prop) (ds.lon.map qmod360)) 0 row))).map
        (fun slice => permuteBy (sortPerm (· ≤ · : ℚ → ℚ → Prop) ds.lat) [] slice) := rfl
  -- lengths after the first pass
  have hlen_time : d3.time.length = ds.time.length := by
    rw [htime, length_sortKeys, length_map]
  have hlen_lon : d3.lon.length = ds.lon.length := by
    rw [hlon, length_sortKeys, length_map]
  have hlen_lat : d3.lat.length = ds.lat.length := by
    rw [hlat, length_sortKeys]
  have hlen_data : d3.data.length = d3.time.length := by
    rw [hdata, hlen_time, length_map, length_map, length_permuteBy, length_sortPerm, length_map]
  -- every slice of the first pass's data is a permutation image of an original
  -- slice, hence has the lat axis's length, and its rows have the lon length
  have hslice : ∀ s ∈ d3.data, s.length = d3.lat.length ∧ ∀ r ∈ s, r.length = d3.lon.length := by
    intro s hs
    rw [hdata] at hs
    simp only [mem_map] at hs
    obtain ⟨s2, hs2, hs2eq⟩ := hs
    obtain ⟨s1, hs1, hs1eq⟩ := hs2
    constructor
    · rw [← hs2eq, length_permuteBy, length_sortPerm, hlen_lat]
    · intro r hr
      have hs1mem : s1 ∈ ds.data := by
        refine mem_permuteBy_of_lt (fun k hk => ?_) hs1
        have := sortPerm_mem_lt Date.le hk
        rw [length_map] at this
        omega
      have hs1len : s1.length = ds.lat.length := (hws s1 hs1mem).1
      have hs2len : s2.length = ds.lat.length := by
        rw [← hs1eq, length_map, hs1len]
      have hrmem : r ∈ s2 := by
        refine mem_permuteBy_of_lt (fun k hk => ?_) (hs2eq ▸ hr)
        have := sortPerm_mem_lt (· ≤ · : ℚ → ℚ → Prop) hk
        omega
      rw [← hs1eq] at hrmem
      simp only [mem_map] at hrmem
      obtain ⟨r1, _, hr1eq⟩ := hrmem
      rw [← hr1eq, length_permuteBy, length_sortPerm, length_map, hlen_lon]
  -- the second pass's three steps are each the identity on the first pass output
  have hfix : rectFixTime d3 = d3 := by
    refine rectFixTime_eq_self ?_ ?_ hlen_data
    · rw [htime]
      exact sortKeys_sorted Date.le _
    · intro t ht
      rw [htime] at ht
      have := (mem_sortKeys Date.le).mp ht
      simp only [mem_map] at this
      obtain ⟨t0, _, ht0⟩ := this
      rw [← ht0]
      exact truncMonth_truncMonth t0
  have hshift : rectShiftSortLon d3 = d3 := by
    refine rectShiftSortLon_eq_self ?_ ?_ (fun s hs => (hslice s hs).2)
    · rw [hlon]
      exact sortKeys_sorted _ _
    · intro x hx
      rw [hlon] at hx
      have := (mem_sortKeys _).mp hx
      simp only [mem_map] at this
      obtain ⟨x0, _, hx0⟩ := this
      rw [← hx0]
      exact qmod360_idem x0
  have hsort : rectSortLat d3 = d3 := by
    refine rectSortLat_eq_self ?_ (fun s hs => (hslice s hs).1)
    rw [hlat]
    exact sortKeys_sorted _ _
  show rectSortLat (rectShiftSortLon (rectFixTime d3)) = d3
  rw [hfix, hshift, hsort]

theorem curvLonStep_lon_bounds (ds : CurvDS) :
    ∀ row ∈ (curvLonStep ds).lon, ∀ x ∈ row, 0 ≤ x ∧ x < 360 := by
  have hbase : ∀ r ∈ ds.lon.map (fun r0 => r0.map qmod360), ∀ y ∈ r, 0 ≤ y ∧ y < 360 := by
    intro r hr y hy
    simp only [mem_map] at hr
    obtain ⟨r0, _, hr0⟩ := hr
    rw [← hr0] at hy
    simp only [mem_map] at hy
    obtain ⟨y0, _, hy0⟩ := hy
    rw [← hy0]
    exact ⟨qmod360_nonneg y0, qmod360_lt y0⟩
  intro row hrow x hx
  unfold curvLonStep at hrow
  simp only [] at hrow
  split at hrow
  · simp only [mem_map] at hrow
    obtain ⟨r1, hr1, hreq⟩ := hrow
    rw [← hreq] at hx
    rcases mem_permuteBy hx with hmem | h0
    · exact hbase r1 (by simpa using hr1) x hmem
    · rw [h0]
      norm_num
  · exact hbase row (by simpa using hrow) x hx

theorem standardizeCurv_lon_bounds (ds : CurvDS) :
    ∀ row ∈ (standardizeCurv ds).lon, ∀ x ∈ row, 0 ≤ x ∧ x < 360 :=
  curvLonStep_lon_bounds (curvJStep (curvFixTime ds))

theorem standardizeRect_lon_bounds (ds : RectDS) :
    ∀ x ∈ (standardizeRect false ds).lon, 0 ≤ x ∧ x < 360 := by
  intro x hx
  rw [standardizeRect_lon_eq] at hx
  have hmem := (mem_sortKeys _).mp hx
  simp only [mem_map] at hmem
  obtain ⟨y, _, hy⟩ := hmem
  rw [← hy]
  exact ⟨qmod360_nonneg y, qmod360_lt y⟩

theorem standardizeRect_lat_sorted (ds : RectDS) :
    (standardizeRect false ds).lat.Sorted (· ≤ ·) := by
  rw [standardizeRect_lat_eq]
  exact sortKeys_sorted _ _

theorem sorted_lt_of_le_nodup {l : List ℚ} (hs : l.Sorted (· ≤ ·)) (hn : l.Nodup) :
    l.Sorted (· < ·) := by
  rw [Sorted, pairwise_iff_get] at hs ⊢
  rw [Nodup, pairwise_iff_get] at hn
  intro i j hij
  exact lt_of_le_of_ne (hs i j hij) (hn i j hij)

theorem standardizeRect_lat_strict (ds : RectDS) (hn : ds.lat.Nodup) :
    (standardizeRect false ds).lat.Sorted (· < ·) := by
  refine sorted_lt_of_le_nodup (standardizeRect_lat_sorted ds) ?_
  rw [standardizeRect_lat_eq]
  exact ((sortKeys_perm _ ds.lat).nodup_iff).mpr hn

/-- C8 counterexample: standardization is not idempotent on the curvilinear
path.  For `exCurvNonIdem` the i-axis re-sort keys are the pre-modulo sampled
longitudes [-10, 5] (already ascending, so the first pass does not permute),
but the stored longitudes become [350, 5]; the second pass sorts by [350, 5]
and swaps the columns, changing lon and data. -/
theorem C8_counterexample_curv_not_idempotent :
    standardize_dims false (standardize_dims false (XrDataset.curv exCurvNonIdem)) ≠
      standardize_dims false (XrDataset.curv exCurvNonIdem) := by
  have h1 : standardizeCurv exCurvNonIdem = exCurvMid := by
    norm_num [standardizeCurv, curvFixTime, curvJStep, curvLonStep, exCurvNonIdem, exCurvMid,
      colAt, lastD, truncMonth, sortKeys, sortPerm, sortedEnum, idxRel, permuteBy, qmod360_def,
      List.insertionSort, List.orderedInsert, List.enum, List.enumFrom, Date.le,
      Date.mk.injEq, List.range_succ, List.range_zero, List.flatMap_cons, List.flatMap_nil]
  have h2 : standardizeCurv exCurvMid ≠ exCurvMid := by
    norm_num [standardizeCurv, curvFixTime, curvJStep, curvLonStep, exCurvMid,
      colAt, lastD, truncMonth, sortKeys, sortPerm, sortedEnum, idxRel, permuteBy, qmod360_def,
      List.insertionSort, List.orderedInsert, List.enum, List.enumFrom, Date.le,
      Date.mk.injEq, List.range_succ, List.range_zero, List.flatMap_cons, List.flatMap_nil,
      CurvDS.mk.injEq]
  simp only [standardize_dims, h1]
  intro h
  exact h2 (XrDataset.curv.inj h)

/-- C8 (amended): standardization is idempotent on the rectilinear path with
the coordinate-reset flag at its default, for every dataset whose data shape
agrees with its coordinate lengths. -/
theorem C8_standardize_rect_idempotent (ds : RectDS) (hwf : ds.wf) :
    standardize_dims false (standardize_dims false (XrDataset.rect ds)) =
      standardize_dims false (XrDataset.rect ds) := by
  simp only [standardize_dims]
  rw [standardizeRect_idem ds hwf]

/-- C8 witness: the amended idempotence applied to the repository's own
unit-test fixture. -/
theorem C8_witness :
    exRectStd.wf ∧
      standardize_dims false (standardize_dims false (XrDataset.rect exRectStd)) =
        standardize_dims false (XrDataset.rect exRectStd) :=
  ⟨by decide, C8_standardize_rect_idempotent exRectStd (by decide)⟩

/-- C9 counterexample: a rectilinear dataset with a duplicated latitude value
standardizes to a latitude axis that is not strictly ascending (sorting cannot
separate equal values), refuting the unconditional strict-ascent part of the
claim. -/
theorem C9_counterexample_duplicate_lat :
    ¬ (standardizeRect false exRectDupLat).lat.Sorted (· < ·) := by
  rw [standardizeRect_lat_eq]
  decide

/-- C9 (amended): every longitude value of a standardized dataset (either
grid path, default flag) lies in [0, 360); the rectilinear latitude axis is
sorted non-decreasing, and strictly ascending whenever the input latitudes
are pairwise distinct. -/
theorem C9_lon_range_lat_sorted :
    (∀ ds : RectDS, ∀ x ∈ (standardizeRect false ds).lon, 0 ≤ x ∧ x < 360) ∧
    (∀ ds : CurvDS, ∀ row ∈ (standardizeCurv ds).lon, ∀ x ∈ row, 0 ≤ x ∧ x < 360) ∧
    (∀ ds : RectDS, (standardizeRect false ds).lat.Sorted (· ≤ ·)) ∧
    (∀ ds : RectDS, ds.lat.Nodup → (standardizeRect false ds).lat.Sorted (· < ·)) :=
  ⟨standardizeRect_lon_bounds, standardizeCurv_lon_bounds,
   standardizeRect_lat_sorted, standardizeRect_lat_strict⟩

/-- C9 witness: the longitude-range conjunct applied to a concrete
standardized longitude value, and the strict-ascent conjunct applied to the
unit-test fixture, whose latitudes are distinct. -/
theorem C9_witness :
    ((0 : ℚ) ≤ 0 ∧ (0 : ℚ) < 360) ∧ (standardizeRect false exRectStd).lat.Sorted (· < ·) := by
  constructor
  · have h : (standardizeRect false exRectDupLat).lon = [0] := by
      rw [standardizeRect_lon_eq]
      norm_num [qmod360_def, sortKeys, sortedEnum, idxRel, List.insertionSort,
        List.orderedInsert, List.enum, List.enumFrom, exRectDupLat]
    exact C9_lon_range_lat_sorted.1 exRectDupLat 0 (h ▸ mem_cons_self 0 [])
  · exact C9_lon_range_lat_sorted.2.2.2 exRectStd (by decide)

theorem length_maskRows (cond : ℕ → Bool) (w : List (List (Option ℚ))) (i : ℕ) :
    (maskRows cond w i).length = w.length := by
  induction w generalizing i with
  | nil => rfl
  | cons r rs ih => simp [maskRows, ih]

theorem map_length_maskRows (cond : ℕ → Bool) (w : List (List (Option ℚ))) (i : ℕ) :
    (maskRows cond w i).map List.length = w.map List.length := by
  induction w generalizing i with
  | nil => rfl
  | cons r rs ih =>
    simp only [maskRows, map_cons, ih]
    by_cases h : cond i <;> simp [h]

theorem maskRows_getD_lt (cond : ℕ → Bool) {w : List (List (Option ℚ))} {la : ℕ}
    (h : la < w.length) (i : ℕ) :
    (maskRows cond w i).getD la [] =
      if cond (i + la) then w.getD la [] else (w.getD la []).map (fun _ => none) := by
  induction w generalizing la i with
  | nil => simp at h
  | cons r rs ih =>
    cases la with
    | zero => simp [maskRows]
    | succ n =>
      have hn : n < rs.length := by simpa using h
      simp only [maskRows, List.getD_cons_succ]
      rw [ih hn (i + 1)]
      have harith : i + 1 + n = i + (n + 1) := by omega
      rw [harith]

theorem maskedWeights_length (lat_min lat_max : ℚ) (lats : List ℚ)
    (w : List (List (Option ℚ))) :
    (maskedWeights lat_min lat_max lats w).length = w.length := by
  simp [maskedWeights, whereLatLt, whereLatGt, length_maskRows]

/-- Cells of a masked weight row at a latitude outside the open region bounds
are all NaN. -/
theorem maskedWeights_outside_none {lat_min lat_max : ℚ} {lats : List ℚ}
    {w : List (List (Option ℚ))} {la : ℕ}
    (h : ¬(lat_min < lats.getD la 0 ∧ lats.getD la 0 < lat_max)) :
    ∀ c ∈ (maskedWeights lat_min lat_max lats w).getD la [], c = none := by
  intro c hc
  by_cases hla : la < w.length
  · have hla1 : la < (whereLatGt lat_min lats w).length := by
      simpa [whereLatGt, length_maskRows] using hla
    unfold maskedWeights whereLatLt at hc
    rw [maskRows_getD_lt _ hla1 0] at hc
    simp only [Nat.zero_add] at hc
    unfold whereLatGt at hc
    rw [maskRows_getD_lt _ hla 0] at hc
    simp only [Nat.zero_add] at hc
    simp only [decide_eq_true_eq] at hc
    by_cases h2 : lats.getD la 0 < lat_max
    · by_cases h1 : lat_min < lats.getD la 0
      · exact absurd ⟨h1, h2⟩ h
      · rw [if_pos h2, if_neg h1] at hc
        simp only [mem_map] at hc
        obtain ⟨_, _, hcc⟩ := hc
        exact hcc.symm
    · rw [if_neg h2] at hc
      simp only [mem_map] at hc
      obtain ⟨_, _, hcc⟩ := hc
      exact hcc.symm
  · rw [List.getD_eq_default] at hc
    · simp at hc
    · rw [maskedWeights_length]
      omega

theorem dotSum_zero_left {w : List ℚ} (h : ∀ a ∈ w, a = 0) (x : List ℚ) :
    dotSum w x = 0 := by
  induction w generalizing x with
  | nil => simp [dotSum]
  | cons a t ih =>
    cases x with
    | nil => simp [dotSum]
    | cons b xs =>
      have ha : a = 0 := h a (mem_cons_self a t)
      have ht : ∀ a ∈ t, a = 0 := fun y hy => h y (mem_cons_of_mem a hy)
      simp only [dotSum, zipWith_cons_cons, sum_cons, ha, zero_mul, zero_add]
      exact ih ht xs

theorem dotSum_replicate (w : List ℚ) (v : ℚ) :
    dotSum w (List.replicate w.length v) = w.sum * v := by
  induction w with
  | nil => simp [dotSum]
  | cons a t ih =>
    simp only [length_cons, List.replicate_succ, dotSum, zipWith_cons_cons, sum_cons]
    rw [show (List.zipWith (· * ·) t (List.replicate t.length v)).sum = dotSum t (List.replicate t.length v) from rfl,
      ih]
    ring

theorem sum_map_sub_const (l : List ℚ) (c : ℚ) :
    (l.map (fun x => x - c)).sum = l.sum - l.length * c := by
  induction l with
  | nil => simp
  | cons a t ih =>
    simp only [map_cons, sum_cons, ih, length_cons]
    push_cast
    ring

theorem eq_two_of_length_two {α : Type} {l : List α} (d : α) (h : l.length = 2) :
    l = [l.getD 0 d, l.getD 1 d] := by
  match l with
  | [a, b] => rfl
  | [] => simp at h
  | [a] => simp at h
  | a :: b :: c :: t => simp at h

theorem map_some_getD (l : List ℚ) :
    (l.map some).map (fun c => Option.getD c 0) = l := by
  rw [List.map_map]
  exact map_id_of_mem (fun x _ => rfl)

/-- Weighted mean of a two-row grid whose second weight row is entirely NaN:
only the first band contributes, and with constant value v1 there the mean is
exactly v1. -/
theorem weightedMean_two_rows (r0 : List ℚ) (row1 : List (Option ℚ))
    (hz : ∀ c ∈ row1, c = none) (v1 v2 : ℚ) (n2 : ℕ) (hw : 0 < r0.sum) :
    weightedMean (fillna0 [r0.map some, row1])
      [List.replicate r0.length v1, List.replicate n2 v2] = v1 := by
  have hzero : ∀ a ∈ row1.map (fun c => Option.getD c 0), a = 0 := by
    intro a ha
    simp only [mem_map] at ha
    obtain ⟨c, hc, hca⟩ := ha
    rw [hz c hc] at hca
    simpa using hca.symm
  have hfill : fillna0 [r0.map some, row1] =
      [r0, row1.map (fun c => Option.getD c 0)] := by
    unfold fillna0
    rw [map_cons, map_cons, map_nil, map_some_getD]
  rw [hfill]
  unfold weightedMean weightedSum totalWeight
  simp only [zipWith_cons_cons, zipWith_nil_right, zipWith_nil_left, sum_cons, sum_nil,
    map_cons, map_nil]
  rw [dotSum_replicate, dotSum_zero_left hzero, List.sum_eq_zero hzero]
  rw [add_zero, add_zero, add_zero]
  rw [mul_comm, mul_div_assoc, div_self (ne_of_gt hw), mul_one]

/-- C6: region masking sets weights outside the open latitude band to NaN
while preserving the grid shape; NaN weights are treated as zero in the
weighted reduction; consequently, for a grid of two latitude bands with a
constant value per band and the region containing only the first band, the
weighted zonal mean equals the first band's value exactly. -/
theorem C6_region_weights_zonal_mean :
    (∀ (lat_min lat_max : ℚ) (lats : List ℚ) (w : List (List (Option ℚ))),
        (maskedWeights lat_min lat_max lats w).map List.length = w.map List.length) ∧
    (∀ (lat_min lat_max : ℚ) (lats : List ℚ) (w : List (List (Option ℚ))) (la : ℕ),
        ¬(lat_min < lats.getD la 0 ∧ lats.getD la 0 < lat_max) →
          ∀ c ∈ (maskedWeights lat_min lat_max lats w).getD la [], c = none) ∧
    (∀ row : List (Option ℚ), (∀ c ∈ row, c = none) →
        ∀ x : List ℚ, dotSum (row.map (fun c => Option.getD c 0)) x = 0) ∧
    (∀ (lat_min lat_max l1 l2 v1 v2 : ℚ) (w1 w2 : List ℚ),
        lat_min < l1 → l1 < lat_max → ¬(lat_min < l2 ∧ l2 < lat_max) → 0 < w1.sum →
        zonal_mean (maskedWeights lat_min lat_max [l1, l2] [w1.map some, w2.map some])
          [[List.replicate w1.length v1, List.replicate w2.length v2]] = [v1]) := by
  refine ⟨?_, ?_, ?_, ?_⟩
  · intro lat_min lat_max lats w
    simp [maskedWeights, whereLatLt, whereLatGt, map_length_maskRows]
  · intro lat_min lat_max lats w la h
    exact maskedWeights_outside_none h
  · intro row hrow x
    refine dotSum_zero_left ?_ x
    intro a ha
    simp only [mem_map] at ha
    obtain ⟨c, hc, hca⟩ := ha
    rw [hrow c hc] at hca
    simpa using hca.symm
  · intro lmn lmx l1 l2 v1 v2 w1 w2 h1 h1x h2 hw
    have hlen2 : (maskedWeights lmn lmx [l1, l2] [w1.map some, w2.map some]).length = 2 := by
      rw [maskedWeights_length]
      rfl
    have hrow0 :
        (maskedWeights lmn lmx [l1, l2] [w1.map some, w2.map some]).getD 0 [] = w1.map some := by
      unfold maskedWeights whereLatLt
      rw [maskRows_getD_lt _ (by simp [whereLatGt, length_maskRows]) 0]
      unfold whereLatGt
      rw [maskRows_getD_lt _ (by simp) 0]
      simp [h1, h1x]
    have hrow1 :
        ∀ c ∈ (maskedWeights lmn lmx [l1, l2] [w1.map some, w2.map some]).getD 1 [], c = none :=
      maskedWeights_outside_none (by simpa using h2)
    have hsplit := eq_two_of_length_two ([] : List (Option ℚ)) hlen2
    rw [hrow0] at hsplit
    rw [hsplit]
    unfold zonal_mean
    rw [map_cons, map_nil]
    rw [weightedMean_two_rows w1 _ hrow1 v1 v2 w2.length hw]

/-- C6 witness: a concrete two-band grid, region (-5, 5) containing only the
first band (latitude 0), values 7 and 9 per band, unit weights. -/
theorem C6_witness :
    zonal_mean (maskedWeights (-5) 5 [0, 10] [([1, 1] : List ℚ).map some, ([1] : List ℚ).map some])
      [[List.replicate ([1, 1] : List ℚ).length 7, List.replicate ([1] : List ℚ).length 9]] =
      [7] :=
  C6_region_weights_zonal_mean.2.2.2 (-5) 5 0 10 7 9 [1, 1] [1]
    (by norm_num) (by norm_num) (by norm_num) (by norm_num)

/-- C10: the region bounds are exclusive at both ends — a latitude exactly
equal to lat_min or lat_max is masked to NaN (the conditions are the strict
inequalities lat > lat_min and lat < lat_max), and such a row contributes
zero to any weighted reduction after fillna(0). -/
theorem C10_boundary_weights_nan :
    ∀ (lat_min lat_max : ℚ) (lats : List ℚ) (w : List (List (Option ℚ))) (la : ℕ),
      lats.getD la 0 = lat_min ∨ lats.getD la 0 = lat_max →
      (∀ c ∈ (maskedWeights lat_min lat_max lats w).getD la [], c = none) ∧
      (∀ x : List ℚ,
        dotSum (((maskedWeights lat_min lat_max lats w).getD la []).map
          (fun c => Option.getD c 0)) x = 0) := by
  intro lmn lmx lats w la hb
  have hout : ¬(lmn < lats.getD la 0 ∧ lats.getD la 0 < lmx) := by
    rcases hb with h | h <;> rw [h] <;> intro hc
    · exact lt_irrefl _ hc.1
    · exact lt_irrefl _ hc.2
  refine ⟨maskedWeights_outside_none hout, fun x => dotSum_zero_left ?_ x⟩
  intro a ha
  simp only [mem_map] at ha
  obtain ⟨c, hc, hca⟩ := ha
  rw [maskedWeights_outside_none hout c hc] at hca
  simpa using hca.symm

/-- C10 witness: a single cell at latitude 0 with the region's lat_min also 0
is masked to NaN and contributes zero. -/
theorem C10_witness :
    (∀ c ∈ (maskedWeights 0 90 [0] [[some 3]]).getD 0 [], c = none) ∧
    (∀ x : List ℚ,
      dotSum (((maskedWeights 0 90 [0] [[some 3]]).getD 0 []).map
        (fun c => Option.getD c 0)) x = 0) :=
  C10_boundary_weights_nan 0 90 [0] [[some 3]] 0 (Or.inl rfl)

/-- C1: for a model series without the ensemble dimension, the CRPS methods do
not raise the intended missing-ensemble error — the source builds
`ValueError("no ensemble dimension")` without `raise`, so control falls
through to the CRPS library call, which fails with its own
missing-core-dimension error instead. -/
theorem C1_crps_guard_never_raises :
    ∀ (v obs : List ℚ) (g obsg : List (List (List ℚ))) (w : List (List (Option ℚ))),
      zonal_mean_crps (ZonalSeries.collapsed v) obs = Except.error PyError.missingCoreDim ∧
      zonal_mean_crps (ZonalSeries.collapsed v) obs ≠
        Except.error PyError.missingEnsembleDimension ∧
      spatial_crps (ModelGrid.collapsed g) obsg w = Except.error PyError.missingCoreDim ∧
      spatial_crps (ModelGrid.collapsed g) obsg w ≠
        Except.error PyError.missingEnsembleDimension := by
  intro v obs g obsg w
  refine ⟨rfl, ?_, rfl, ?_⟩ <;>
    simp [zonal_mean_crps, crps_ensemble, spatial_crps, crps_ensemble_spatial]

theorem c3_pipeline_eval :
    zonal_mean_crps
        (ZonalSeries.ens (zonal_mean_ens (maskedWeights (-90) 90 [0] [[some 1]])
          [[[[2]]], [[[3]]], [[[4]]]]))
        (zonal_mean (maskedWeights (-90) 90 [0] [[some 1]]) [[[1]]]) =
      Except.ok (14 / 9) := by
  norm_num [zonal_mean_crps, crps_ensemble, zonal_mean_ens, zonal_mean, maskedWeights,
    whereLatGt, whereLatLt, maskRows, fillna0, weightedMean, weightedSum, totalWeight,
    dotSum, crpsEmpirical, ZonalSeries.hasEnsemble, List.range_succ, List.range_zero,
    abs_sub_comm]

/-- C3 counterexample: for ensemble members [2, 3, 4] against observation 1
at a single time step and grid point, the computed CRPS is 14/9, which is not
the mean absolute deviation of the members from the observation (that is 2). -/
theorem C3_counterexample_crps_not_mad :
    zonal_mean_crps
        (ZonalSeries.ens (zonal_mean_ens (maskedWeights (-90) 90 [0] [[some 1]])
          [[[[2]]], [[[3]]], [[[4]]]]))
        (zonal_mean (maskedWeights (-90) 90 [0] [[some 1]]) [[[1]]]) ≠
      Except.ok (meanAbsDev [2, 3, 4] 1) := by
  rw [c3_pipeline_eval]
  have hmad : meanAbsDev [2, 3, 4] 1 = 2 := by
    norm_num [meanAbsDev]
  rw [hmad]
  intro h
  have h2 := Except.ok.inj h
  norm_num at h2

/-- C3 (amended): for ensemble members [2, 3, 4] against observation 1 at a
single time step and grid point, the computed CRPS equals 14/9, the value of
the standard empirical CRPS formula mean|x_i - y| - (1/(2 m^2)) Σ|x_i - x_j|
for this finite ensemble (strictly less than the mean absolute deviation 2). -/
theorem C3_crps_value_empirical :
    zonal_mean_crps
        (ZonalSeries.ens (zonal_mean_ens (maskedWeights (-90) 90 [0] [[some 1]])
          [[[[2]]], [[[3]]], [[[4]]]]))
        (zonal_mean (maskedWeights (-90) 90 [0] [[some 1]]) [[[1]]]) =
      Except.ok (14 / 9) :=
  c3_pipeline_eval

/-- C4: the axis-equality guard `if ~weights.lat.equals(model.lat)` applies
Python's bitwise complement to a bool, producing -2 or -1, which are both
truthy — so the guard is constantly true and the axis is overwritten
unconditionally, regardless of whether the axes were already equal; no
equality or correspondence confirmation ever takes effect. -/
theorem C4_relabel_unconditional :
    (∀ b : Bool, pyTruthy (pyInvert b) = true) ∧
    (∀ waxis maxis : List ℚ,
      relabelAxis waxis maxis =
        if waxis.length = maxis.length then Except.ok maxis
        else Except.error "conflicting sizes for dimension") := by
  constructor
  · intro b
    cases b <;> rfl
  · intro waxis maxis
    unfold relabelAxis
    have hg : pyTruthy (pyInvert (decide (waxis = maxis))) = true := by
      cases hd : decide (waxis = maxis) <;> rfl
    rw [if_pos hg]

/-- C7: bias adjustment subtracts the whole-period mean difference from every
model value, so the adjusted model's time mean equals the observation's time
mean, and the difference between original and adjusted model is the same
constant at every time step. -/
theorem C7_bias_adjustment_centers (model obs : List ℚ) (hm : model ≠ [])
    (hlen : model.length = obs.length) :
    seriesMean (bias_adjustment model obs) = seriesMean obs ∧
    ∀ i < model.length,
      model.getD i 0 - (bias_adjustment model obs).getD i 0 =
        seriesMean model - seriesMean obs := by
  have hn : (model.length : ℚ) ≠ 0 :=
    Nat.cast_ne_zero.mpr (List.length_pos.mpr hm).ne'
  have hn2 : (obs.length : ℚ) ≠ 0 := by
    rw [← hlen]
    exact hn
  constructor
  · unfold bias_adjustment seriesMean
    rw [sum_map_sub_const, length_map]
    field_simp
    ring
  · intro i hi
    have hi2 : i < (bias_adjustment model obs).length := by
      simpa [bias_adjustment] using hi
    rw [List.getD_eq_getElem _ _ hi2, List.getD_eq_getElem _ _ hi]
    unfold bias_adjustment
    simp only [List.getElem_map]
    ring

/-- C7 witness: model [3, 5] (mean 4) against observation [1, 1] (mean 1). -/
theorem C7_witness :
    seriesMean (bias_adjustment [3, 5] [1, 1]) = seriesMean [1, 1] ∧
    ∀ i < ([3, 5] : List ℚ).length,
      ([3, 5] : List ℚ).getD i 0 - (bias_adjustment [3, 5] [1, 1]).getD i 0 =
        seriesMean [3, 5] - seriesMean [1, 1] :=
  C7_bias_adjustment_centers [3, 5] [1, 1] (by decide) rfl

theorem dropDupKeys_subset {seen : List (String × String × String × String × String × String × String × String)}
    {l : List CatRow} : ∀ r ∈ dropDupKeys seen l, r ∈ l := by
  induction l generalizing seen with
  | nil => simp [dropDupKeys]
  | cons a t ih =>
    intro r hr
    unfold dropDupKeys at hr
    by_cases hk : a.key ∈ seen
    · rw [if_pos hk] at hr
      exact mem_cons_of_mem a (ih r hr)
    · rw [if_neg hk] at hr
      rcases mem_cons.mp hr with h | h
      · exact h ▸ mem_cons_self a t
      · exact mem_cons_of_mem a (ih r h)

theorem dropDupKeys_key_not_seen
    {seen : List (String × String × String × String × String × String × String × String)}
    {l : List CatRow} : ∀ r ∈ dropDupKeys seen l, r.key ∉ seen := by
  induction l generalizing seen with
  | nil => simp [dropDupKeys]
  | cons a t ih =>
    intro r hr
    unfold dropDupKeys at hr
    by_cases hk : a.key ∈ seen
    · rw [if_pos hk] at hr
      exact ih r hr
    · rw [if_neg hk] at hr
      rcases mem_cons.mp hr with h | h
      · rw [h]
        exact hk
      · have := ih r h
        intro hmem
        exact this (mem_cons_of_mem _ hmem)

/-- In a version-descending sorted list, the first kept row of each key group
has the maximal version of its group. -/
theorem dropDupKeys_max {l : List CatRow} (hs : l.Sorted versionDesc) :
    ∀ seen, ∀ r ∈ dropDupKeys seen l, ∀ r2 ∈ l, r2.key = r.key →
      r2.version ≤ r.version := by
  induction l with
  | nil => simp [dropDupKeys]
  | cons a t ih =>
    rw [sorted_cons] at hs
    obtain ⟨ha, ht⟩ := hs
    intro seen r hr r2 hr2 hkey
    unfold dropDupKeys at hr
    by_cases hk : a.key ∈ seen
    · rw [if_pos hk] at hr
      rcases mem_cons.mp hr2 with h | h
      · exfalso
        have hnotseen := dropDupKeys_key_not_seen r hr
        apply hnotseen
        rw [← hkey, h]
        exact hk
      · exact ih ht seen r hr r2 h hkey
    · rw [if_neg hk] at hr
      rcases mem_cons.mp hr with hra | hra
      · rcases mem_cons.mp hr2 with h | h
        · rw [h, hra]
        · rw [hra]
          exact ha r2 h
      · rcases mem_cons.mp hr2 with h | h
        · exfalso
          have hnotseen := dropDupKeys_key_not_seen r hra
          apply hnotseen
          rw [← hkey, h]
          exact mem_cons_self _ _
        · exact ih ht _ r hra r2 h hkey

/-- Every key of the input is represented in the deduplicated output. -/
theorem dropDupKeys_covers {l : List CatRow} :
    ∀ seen, ∀ r2 ∈ l, r2.key ∉ seen →
      ∃ r ∈ dropDupKeys seen l, r.key = r2.key := by
  induction l with
  | nil => simp
  | cons a t ih =>
    intro seen r2 hr2 hns
    unfold dropDupKeys
    by_cases hk : a.key ∈ seen
    · rw [if_pos hk]
      rcases mem_cons.mp hr2 with h | h
      · exact absurd (h ▸ hk) hns
      · exact ih seen r2 h hns
    · rw [if_neg hk]
      rcases mem_cons.mp hr2 with h | h
      · exact ⟨a, mem_cons_self _ _, (h ▸ rfl : a.key = r2.key)⟩
      · by_cases heq : r2.key = a.key
        · exact ⟨a, mem_cons_self _ _, heq.symm⟩
        · obtain ⟨r, hrmem, hrk⟩ := ih (a.key :: seen) r2 h (by
            intro hmem
            rcases mem_cons.mp hmem with hh | hh
            · exact heq hh
            · exact hns hh)
          exact ⟨r, mem_cons_of_mem _ hrmem, hrk⟩

/-- The deduplicated output has pairwise-distinct keys. -/
theorem dropDupKeys_keys_nodup {l : List CatRow} :
    ∀ seen, ((dropDupKeys seen l).map CatRow.key).Nodup := by
  induction l with
  | nil => simp [dropDupKeys]
  | cons a t ih =>
    intro seen
    unfold dropDupKeys
    by_cases hk : a.key ∈ seen
    · rw [if_pos hk]
      exact ih seen
    · rw [if_neg hk]
      rw [map_cons, nodup_cons]
      refine ⟨?_, ih (a.key :: seen)⟩
      intro hmem
      simp only [mem_map] at hmem
      obtain ⟨r, hr, hrk⟩ := hmem
      exact dropDupKeys_key_not_seen r hr (hrk ▸ mem_cons_self _ _)

/-- C5: when the filtered cloud-catalog result has two or more rows, version
resolution keeps, for every logical-dataset key, exactly one row, and that
row has the maximal version of its group; in particular, with two rows
differing only in version 20180101 versus 20200101, the 20200101 row is
selected (and its zstore is returned). -/
theorem C5_latest_version_resolution :
    (∀ rows : List CatRow, 2 ≤ rows.length →
      (∀ r ∈ resolveVersions rows, r ∈ rows ∧
        ∀ r2 ∈ rows, r2.key = r.key → r2.version ≤ r.version) ∧
      (∀ r2 ∈ rows, ∃ r ∈ resolveVersions rows, r.key = r2.key) ∧
      ((resolveVersions rows).map CatRow.key).Nodup) ∧
    (∀ r1 r2 : CatRow, r1.key = r2.key → r1.version = 20180101 → r2.version = 20200101 →
      resolveVersions [r1, r2] = [r2] ∧ check_gcs_files [r1, r2] = some r2.zstore) := by
  constructor
  · intro rows h2
    have hcond : 1 < rows.length := by omega
    have hperm : sortByVersionDesc rows ~ rows := perm_insertionSort _ _
    have hsorted : (sortByVersionDesc rows).Sorted versionDesc :=
      sorted_insertionSort _ _
    unfold resolveVersions
    rw [if_pos hcond]
    refine ⟨?_, ?_, dropDupKeys_keys_nodup []⟩
    · intro r hr
      refine ⟨hperm.mem_iff.mp (dropDupKeys_subset r hr), ?_⟩
      intro r2 hr2 hkey
      exact dropDupKeys_max hsorted [] r hr r2 (hperm.mem_iff.mpr hr2) hkey
    · intro r2 hr2
      exact dropDupKeys_covers [] r2 (hperm.mem_iff.mpr hr2) (by simp)
  · intro r1 r2 hk h18 h20
    have hvd : ¬ versionDesc r1 r2 := by
      unfold versionDesc
      omega
    have hsort : sortByVersionDesc [r1, r2] = [r2, r1] := by
      unfold sortByVersionDesc
      simp only [insertionSort, List.orderedInsert]
      rw [if_neg hvd]
    have hdrop : dropDupKeys [] [r2, r1] = [r2] := by
      unfold dropDupKeys
      rw [if_neg (by simp)]
      unfold dropDupKeys
      rw [if_pos (by simp [hk])]
      rfl
    constructor
    · unfold resolveVersions
      rw [if_pos (by norm_num), hsort, hdrop]
    · unfold check_gcs_files
      rw [if_pos (by norm_num), hsort, hdrop]
      rfl

/-- C5 witness: the two-row scenario instantiated with concrete rows. -/
theorem C5_witness :
    resolveVersions [crow2018, crow2020] = [crow2020] ∧
    check_gcs_files [crow2018, crow2020] = some crow2020.zstore :=
  C5_latest_version_resolution.2 crow2018 crow2020 rfl rfl rfl

/-- C2: the `read_data` cascade tries local cache, cloud catalog and remote
search strictly in that order; the first succeeding tier's data is returned
and later tiers are not queried (non-empty local cache ⇒ zero cloud and
remote calls); the facet-tuple-carrying error is raised exactly when all
three tiers return nothing. -/
theorem C2_cascade :
    ∀ (env : TierResults) (f : Facets),
      (env.localFiles ≠ [] →
        read_data env f = (Except.ok (TierData.localData env.localFiles), ⟨1, 0, 0⟩)) ∧
      (env.localFiles = [] → gcsTruthy env.gcsPath = true →
        read_data env f = (Except.ok (TierData.gcsData (env.gcsPath.getD "")), ⟨1, 1, 0⟩)) ∧
      (env.localFiles = [] → gcsTruthy env.gcsPath = false → esgfTruthy env.esgfFiles = true →
        read_data env f = (Except.ok (TierData.esgfData (env.esgfFiles.getD [])), ⟨1, 1, 1⟩)) ∧
      ((read_data env f).1 = Except.error f ↔
        (env.localFiles = [] ∧ gcsTruthy env.gcsPath = false ∧
          esgfTruthy env.esgfFiles = false)) := by
  intro env f
  refine ⟨?_, ?_, ?_, ?_⟩
  · intro h
    unfold read_data
    rw [if_neg h]
  · intro h hg
    unfold read_data
    rw [if_pos h, if_neg (by rw [hg]; simp)]
  · intro h hg he
    unfold read_data
    rw [if_pos h, if_pos hg, if_neg (by rw [he]; simp)]
  · constructor
    · intro hE
      by_cases hl : env.localFiles = []
      · by_cases hg : gcsTruthy env.gcsPath = false
        · by_cases he : esgfTruthy env.esgfFiles = false
          · exact ⟨hl, hg, he⟩
          · unfold read_data at hE
            rw [if_pos hl, if_pos hg, if_neg he] at hE
            exact absurd hE (by simp)
        · unfold read_data at hE
          rw [if_pos hl, if_neg hg] at hE
          exact absurd hE (by simp)
      · unfold read_data at hE
        rw [if_neg hl] at hE
        exact absurd hE (by simp)
    · rintro ⟨h1, h2, h3⟩
      unfold read_data
      rw [if_pos h1, if_pos h2, if_pos h3]

/-- C2 witness: with a non-empty local cache, the local data is returned with
zero cloud-catalog and zero remote-search calls, even though both lower tiers
would have answered. -/
theorem C2_witness :
    read_data ⟨["cached.nc"], some "gs://zstore", some ["u1"]⟩ exFacets =
      (Except.ok (TierData.localData ["cached.nc"]), ⟨1, 0, 0⟩) :=
  (C2_cascade ⟨["cached.nc"], some "gs://zstore", some ["u1"]⟩ exFacets).1 (by decide)

end ClimateBench2
